import Mathlib

/-!
Lite-ARM-OS: register-level model of the HelloWorld and Semihosting examples.

The development embeds the C sources of the two programs
(`00-HelloWorld-lite/hello.c`, `00-HelloWorld-lite/startup.c`,
`00-Semihosting-lite/semi.c`, `00-Semihosting-lite/startup.c`, and the
register map `reg.h`) as small step machines over an explicit hardware state,
and proves properties of their register-access traces.

Conventions.
* A memory-mapped register is a 32-bit cell; a store keeps the value modulo
  `2 ^ 32`.
* `USART2_SR` is owned by the hardware: the value of its `n`-th read is given
  by a stream `sr : Nat → Nat`.  Every other register reads back the value
  last stored in it (or its initial value).
* Every volatile access is appended to a chronological trace.
-/

namespace LiteArm

/-! ## Registers (`reg.h`) -/

/-- The memory-mapped registers named in `reg.h`. -/
inductive Reg
  | RCC_APB2ENR
  | RCC_APB1ENR
  | GPIOA_CRL
  | GPIOA_CRH
  | USART2_SR
  | USART2_DR
  | USART2_CR1
  deriving DecidableEq, Repr

def RCC_BASE : Nat := 0x40021000
def GPIOA_BASE : Nat := 0x40010800
def USART2_BASE : Nat := 0x40004400

/-- Address of each register: the base is an integer (`__REG_TYPE` cast), so
the offset is added as a plain number before the cast to a pointer. -/
def Reg.addr : Reg → Nat
  | .RCC_APB2ENR => RCC_BASE + 0x18
  | .RCC_APB1ENR => RCC_BASE + 0x1c
  | .GPIOA_CRL => GPIOA_BASE + 0x00
  | .GPIOA_CRH => GPIOA_BASE + 0x04
  | .USART2_SR => USART2_BASE + 0x00
  | .USART2_DR => USART2_BASE + 0x04
  | .USART2_CR1 => USART2_BASE + 0x0C

/-- Registers of the GPIOA block. -/
def Reg.isGPIOA : Reg → Bool
  | .GPIOA_CRL => true
  | .GPIOA_CRH => true
  | _ => false

/-- Registers of the USART2 block. -/
def Reg.isUSART2 : Reg → Bool
  | .USART2_SR => true
  | .USART2_DR => true
  | .USART2_CR1 => true
  | _ => false

/-- One volatile access. -/
inductive Event
  | read (r : Reg) (v : Nat)
  | write (r : Reg) (v : Nat)
  deriving DecidableEq, Repr

/-- The register an access touches. -/
def Event.reg : Event → Reg
  | .read r _ => r
  | .write r _ => r

/-- True for a store. -/
def Event.isWrite : Event → Bool
  | .read _ _ => false
  | .write _ _ => true

/-- The stores of a trace, in order, as (register, value) pairs. -/
def writesOf : List Event → List (Reg × Nat)
  | [] => []
  | .read _ _ :: t => writesOf t
  | .write r v :: t => (r, v) :: writesOf t

/-- The hardware as seen by the program. -/
structure Hw where
  /-- Contents of the storage-like registers. -/
  regs : Reg → Nat
  /-- Values returned by successive reads of `USART2_SR`. -/
  sr : Nat → Nat
  /-- Number of reads of `USART2_SR` performed so far. -/
  srReads : Nat
  /-- Chronological trace of volatile accesses. -/
  trace : List Event

/-- Power-on hardware state with the given register contents and status
stream. -/
def Hw.init (regs : Reg → Nat) (sr : Nat → Nat) : Hw :=
  { regs := regs, sr := sr, srReads := 0, trace := [] }

/-- Volatile load `*(R)`. -/
def Hw.read (h : Hw) (r : Reg) : Nat × Hw :=
  match r with
  | .USART2_SR =>
    let v := h.sr h.srReads
    (v, { h with srReads := h.srReads + 1, trace := h.trace ++ [.read .USART2_SR v] })
  | r =>
    let v := h.regs r
    (v, { h with trace := h.trace ++ [.read r v] })

/-- Volatile store `*(R) = v` into a 32-bit register. -/
def Hw.write (h : Hw) (r : Reg) (v : Nat) : Hw :=
  let w := v % 2 ^ 32
  { h with regs := fun q => if q = r then w else h.regs q,
           trace := h.trace ++ [.write r w] }

/-- Read-modify-write `*(R) |= m`: one load followed by one store. -/
def Hw.orAssign (h : Hw) (r : Reg) (m : Nat) : Hw :=
  let (v, h1) := h.read r
  h1.write r (v ||| m)

/-! ## `puts` (`hello.c`, lines 10-20) -/

/-- `USART_FLAG_TXE`, bit 7 of the status register. -/
def USART_FLAG_TXE : Nat := 0x0080

/-- Control points of `puts`. -/
inductive PutsPc
  /-- `while (*str)` -/
  | loopTest
  /-- `while (!(*(USART2_SR) & USART_FLAG_TXE)) ;` -/
  | waitTxe
  /-- `*(USART2_DR) = *str++ & 0xFF;` -/
  | send
  /-- `return 0;` has executed with the given value. -/
  | returned (v : Int)
  /-- A load through `str` left the storage of the string. -/
  | fault
  deriving DecidableEq, Repr

/-- State of an activation of `puts`: control point, the offset of `str` from
its initial value, and the hardware. -/
structure PutsState where
  pc : PutsPc
  str : Nat
  hw : Hw

/-- Entry state of `puts`. -/
def PutsState.entry (hw : Hw) : PutsState :=
  { pc := .loopTest, str := 0, hw := hw }

/-- True once `puts` has returned. -/
def PutsState.completed (s : PutsState) : Bool :=
  match s.pc with
  | .returned _ => true
  | _ => false

/-- One step of `puts`.  `mem` is the storage starting at the initial value of
`str`, one entry per `char`, each given by its byte value: the loop test is
false exactly on the byte 0, and `*str & 0xFF` is the byte value whether `char`
is signed or not. -/
def putsStep (mem : List Nat) (s : PutsState) : PutsState :=
  match s.pc with
  | .loopTest =>
    match mem[s.str]? with
    | none => { s with pc := .fault }
    | some c => if c ≠ 0 then { s with pc := .waitTxe } else { s with pc := .returned 0 }
  | .waitTxe =>
    let (v, hw) := s.hw.read .USART2_SR
    if v &&& USART_FLAG_TXE ≠ 0 then { s with pc := .send, hw := hw }
    else { s with pc := .waitTxe, hw := hw }
  | .send =>
    match mem[s.str]? with
    | none => { s with pc := .fault }
    | some c =>
      { pc := .loopTest, str := s.str + 1, hw := s.hw.write .USART2_DR (c &&& 0xFF) }
  | .returned _ => s
  | .fault => s

/-- Execution of `puts` bounded to `k` steps. -/
def putsRun (mem : List Nat) : Nat → PutsState → PutsState
  | 0, s => s
  | k + 1, s => putsRun mem k (putsStep mem s)

/-- Execution of `puts(str)` from its entry, bounded to `k` steps. -/
def puts (mem : List Nat) (hw : Hw) (k : Nat) : PutsState :=
  putsRun mem k (PutsState.entry hw)

/-! ## HelloWorld `main` (`hello.c`, lines 35-76) -/

/-- The string literal `"HELLO WORLD!\n"` with its terminator. -/
def helloMessage : List Nat :=
  [0x48, 0x45, 0x4C, 0x4C, 0x4F, 0x20, 0x57, 0x4F, 0x52, 0x4C, 0x44, 0x21, 0x0A, 0]

/-- Straight-line statements of `main` before the call of `puts`. -/
inductive InitPc
  /-- `*(RCC_APB2ENR) |= (uint32_t)(0x00000001 | 0x00000004);` -/
  | clkApb2
  /-- `*(RCC_APB1ENR) |= (uint32_t)0x00020000;` -/
  | clkApb1
  /-- `*(GPIOA_CRL) = 0x00004B00;` -/
  | gpioCrl
  /-- `*(GPIOA_CRH) = 0x44444444;` -/
  | gpioCrh
  /-- `*(USART2_CR1) = 0x0000000C;` -/
  | usartCr1
  /-- `*(USART2_CR1) |= 0x2000;` -/
  | usartUe
  /-- `puts("HELLO WORLD!\n");` is about to be called. -/
  | callPuts
  deriving DecidableEq, Repr

/-- State of the HelloWorld `main`. -/
inductive MainState
  /-- Before the statement `pc`. -/
  | init (pc : InitPc) (hw : Hw)
  /-- Inside the call of `puts`. -/
  | inPuts (p : PutsState)
  /-- In the final `while (1) ;`. -/
  | idle (hw : Hw)
  /-- Past the closing brace of `main`: the function has returned. -/
  | exit (hw : Hw)

/-- The hardware component of a state of `main`. -/
def MainState.hw : MainState → Hw
  | .init _ hw => hw
  | .inPuts p => p.hw
  | .idle hw => hw
  | .exit hw => hw

/-- True once `main` has returned to its caller. -/
def MainState.returned : MainState → Bool
  | .exit _ => true
  | _ => false

/-- Entry state of `main`. -/
def MainState.entry (hw : Hw) : MainState := .init .clkApb2 hw

/-- One step of the HelloWorld `main`. -/
def mainStep : MainState → MainState
  | .init .clkApb2 hw => .init .clkApb1 (hw.orAssign .RCC_APB2ENR (0x00000001 ||| 0x00000004))
  | .init .clkApb1 hw => .init .gpioCrl (hw.orAssign .RCC_APB1ENR 0x00020000)
  | .init .gpioCrl hw => .init .gpioCrh (hw.write .GPIOA_CRL 0x00004B00)
  | .init .gpioCrh hw => .init .usartCr1 (hw.write .GPIOA_CRH 0x44444444)
  | .init .usartCr1 hw => .init .usartUe (hw.write .USART2_CR1 0x0000000C)
  | .init .usartUe hw => .init .callPuts (hw.orAssign .USART2_CR1 0x2000)
  | .init .callPuts hw => .inPuts (PutsState.entry hw)
  | .inPuts p =>
    match p.pc with
    | .returned _ => .idle p.hw
    | _ => .inPuts (putsStep helloMessage p)
  | .idle hw => .idle hw
  | .exit hw => .exit hw

/-- Execution of `main` bounded to `k` steps. -/
def mainRun : Nat → MainState → MainState
  | 0, s => s
  | k + 1, s => mainRun k (mainStep s)

/-- The HelloWorld `main` run for `k` steps from entry, on hardware with the
given initial register contents and status stream. -/
def HelloWorld.main (regs : Reg → Nat) (sr : Nat → Nat) (k : Nat) : MainState :=
  mainRun k (MainState.entry (Hw.init regs sr))

/-- Number of steps of `main` that make up the initialisation (steps 1-3 of
the source comments): after them control is at the call of `puts`. -/
def initSteps : Nat := 6

/-! ## Bootstrap (`startup.c` of both variants) -/

/-- A program entry point seen from the reset handler: a step function and
the test that it has returned. -/
structure Prog (σ : Type) where
  step : σ → σ
  returned : σ → Bool

/-- State of `reset_handler`. -/
inductive ResetState (σ : Type)
  /-- Inside the call `main();`. -/
  | inMain (s : σ)
  /-- In the trailing `while (1) ;`. -/
  | idleLoop
  /-- `reset_handler` itself has returned to whatever called it. -/
  | returned

/-- True once `reset_handler` has returned. -/
def ResetState.hasReturned {σ : Type} : ResetState σ → Bool
  | .returned => true
  | _ => false

/-- One step of `reset_handler` of `00-HelloWorld-lite/startup.c`: the body is
`main();` alone, so when `main` returns the handler reaches its closing brace
and returns. -/
def helloResetStep {σ : Type} (M : Prog σ) : ResetState σ → ResetState σ
  | .inMain s => if M.returned s then .returned else .inMain (M.step s)
  | .idleLoop => .idleLoop
  | .returned => .returned

/-- One step of `reset_handler` of `00-Semihosting-lite/startup.c`: the body is
`main(); while (1) ;`. -/
def semiResetStep {σ : Type} (M : Prog σ) : ResetState σ → ResetState σ
  | .inMain s => if M.returned s then .idleLoop else .inMain (M.step s)
  | .idleLoop => .idleLoop
  | .returned => .returned

/-- Bounded execution of a reset handler. -/
def resetRun {σ : Type} (step : ResetState σ → ResetState σ) :
    Nat → ResetState σ → ResetState σ
  | 0, s => s
  | k + 1, s => resetRun step k (step s)

/-- The `reset_handler` of the HelloWorld variant run for `k` steps from its
entry, where it calls `main` in state `s0`. -/
def HelloWorld.reset_handler {σ : Type} (M : Prog σ) (s0 : σ) (k : Nat) : ResetState σ :=
  resetRun (helloResetStep M) k (.inMain s0)

/-- The `reset_handler` of the Semihosting variant run for `k` steps from its
entry, where it calls `main` in state `s0`. -/
def Semihosting.reset_handler {σ : Type} (M : Prog σ) (s0 : σ) (k : Nat) : ResetState σ :=
  resetRun (semiResetStep M) k (.inMain s0)

/-- The HelloWorld `main` as a program entry point. -/
def helloProg : Prog MainState := { step := mainStep, returned := MainState.returned }

/-- A `main` whose body is empty: it has returned as soon as it is entered. -/
def returningProg : Prog Unit := { step := fun s => s, returned := fun _ => true }

/-! ## Semihosting (`semi.c`) -/

/-- The only enumerator of `enum SEMIHOST_SVC`, spelt as in the source. -/
def SYS_WRIE : Int := 0x05

/-- A `bkpt 0xab` trap, with the contents of `r0` and `r1` at the trap. -/
structure Trap where
  r0 : Int
  r1 : Nat
  deriving DecidableEq, Repr

/-- `semihost_call`: loads `service` into `r0` and its pointer argument into `r1`, executes
`bkpt 0xab`, and returns what the host monitor left in `r0`. -/
def semihost_call (host : Int → Nat → Int) (service : Int) (arg : Nat) : Int × Trap :=
  let r0 := service
  let r1 := arg
  let result := host r0 r1
  (result, { r0 := r0, r1 := r1 })

/-- The initialiser of `char message[] = "Hello World!\n";`: the thirteen
characters of the text. -/
def semiText : List Nat :=
  [0x48, 0x65, 0x6C, 0x6C, 0x6F, 0x20, 0x57, 0x6F, 0x72, 0x6C, 0x64, 0x21, 0x0A]

/-- Control points of the Semihosting `main`. -/
inductive SemiPc
  /-- `char message[] = "Hello World!\n";` -/
  | declMessage
  /-- `uint32_t param[] = { 1, (uint32_t)message, sizeof(message) };` -/
  | declParam
  /-- `semihost_call(SYS_WRITE, (void *)param);` -/
  | call
  /-- `while (1) ;` -/
  | idle
  /-- Past the closing brace of `main`. -/
  | exit
  deriving DecidableEq, Repr

/-- State of the Semihosting `main`: the two local arrays and the traps taken
so far. -/
structure SemiState where
  pc : SemiPc
  message : List Nat
  param : List Nat
  traps : List Trap
  deriving DecidableEq, Repr

/-- Entry state of the Semihosting `main`. -/
def SemiState.entry : SemiState :=
  { pc := .declMessage, message := [], param := [], traps := [] }

/-- One step of the Semihosting `main`.  `SYS_WRITE` is the value of the
identifier passed as service code at the call site; the source declares no
such identifier (only `SYS_WRIE`), so its value is left open here.
`messageAddr` and `paramAddr` are the addresses of the two local arrays,
`host` is the monitor's reply. -/
def semiMainStep (SYS_WRITE : Int) (messageAddr paramAddr : Nat) (host : Int → Nat → Int)
    (s : SemiState) : SemiState :=
  match s.pc with
  | .declMessage => { s with pc := .declParam, message := semiText ++ [0] }
  | .declParam =>
    { s with pc := .call,
             param := [1 % 2 ^ 32, messageAddr % 2 ^ 32, s.message.length % 2 ^ 32] }
  | .call =>
    let (_, t) := semihost_call host SYS_WRITE paramAddr
    { s with pc := .idle, traps := s.traps ++ [t] }
  | .idle => s
  | .exit => s

/-- Execution of the Semihosting `main` bounded to `k` steps. -/
def semiMainRun (SYS_WRITE : Int) (messageAddr paramAddr : Nat) (host : Int → Nat → Int) :
    Nat → SemiState → SemiState
  | 0, s => s
  | k + 1, s =>
    semiMainRun SYS_WRITE messageAddr paramAddr host k
      (semiMainStep SYS_WRITE messageAddr paramAddr host s)

/-- The Semihosting `main` run for `k` steps from entry. -/
def Semihosting.main (SYS_WRITE : Int) (messageAddr paramAddr : Nat) (host : Int → Nat → Int)
    (k : Nat) : SemiState :=
  semiMainRun SYS_WRITE messageAddr paramAddr host k SemiState.entry

/-! ## Expected traces and invariants -/

/-- The trace of `n` wait-then-write cycles that each find the flag set at
their first poll: cycle `i` reads the status value `sr (n + i)` and then stores
the low eight bits of the `i`-th character. -/
def cycleTrace (sr : Nat → Nat) : Nat → List Nat → List Event
  | _, [] => []
  | n, c :: cs =>
    .read .USART2_SR (sr n) :: .write .USART2_DR (c &&& 0xFF) :: cycleTrace sr (n + 1) cs

/-- Invariant of `puts` on a non-empty string while no poll ever finds the
flag set: control is at the loop test or in the wait loop, `str` has not
moved, and nothing has been stored. -/
def Blocked (sr : Nat → Nat) (s : PutsState) : Prop :=
  (s.pc = .loopTest ∨ s.pc = .waitTxe) ∧ s.str = 0 ∧ writesOf s.hw.trace = [] ∧ s.hw.sr = sr

/-- Every store to `USART2_DR` in the trace sits right after a read of
`USART2_SR` that had TXE set. -/
def WriteAfterReady (t : List Event) : Prop :=
  ∀ i v, t[i]? = some (.write .USART2_DR v) →
    ∃ w, 0 < i ∧ t[i - 1]? = some (.read .USART2_SR w) ∧ w &&& USART_FLAG_TXE ≠ 0

/-- Every access in the trace is a read of `USART2_SR` or a store to
`USART2_DR`. -/
def OnlyPollAndSend (t : List Event) : Prop :=
  ∀ e ∈ t, (∃ v, e = .read .USART2_SR v) ∨ (∃ v, e = .write .USART2_DR v)

/-- Invariant of `puts` under an arbitrary status stream. -/
def Ordered (s : PutsState) : Prop :=
  OnlyPollAndSend s.hw.trace ∧ WriteAfterReady s.hw.trace ∧
  (s.pc = .send →
    ∃ w, s.hw.trace.getLast? = some (.read .USART2_SR w) ∧ w &&& USART_FLAG_TXE ≠ 0)

/-- The hardware after the six initialisation statements of `main`. -/
def initHw (regs : Reg → Nat) (sr : Nat → Nat) : Hw :=
  ((((((Hw.init regs sr).orAssign .RCC_APB2ENR (0x00000001 ||| 0x00000004)).orAssign
    .RCC_APB1ENR 0x00020000).write .GPIOA_CRL 0x00004B00).write .GPIOA_CRH 0x44444444).write
    .USART2_CR1 0x0000000C).orAssign .USART2_CR1 0x2000

/-- States of `main` at or after the call of `puts`. -/
def MainState.pastInit : MainState → Prop
  | .init .callPuts _ => True
  | .inPuts _ => True
  | .idle _ => True
  | _ => False

/-- True for an access to a register of the GPIOA or USART2 block. -/
def Event.touchesPeripheral (e : Event) : Bool :=
  e.reg.isGPIOA || e.reg.isUSART2

/-- The first four accesses of `main`: the two clock-enable read-modify-writes. -/
def clockTrace (regs : Reg → Nat) : List Event :=
  [.read .RCC_APB2ENR (regs .RCC_APB2ENR),
   .write .RCC_APB2ENR ((regs .RCC_APB2ENR ||| 5) % 2 ^ 32),
   .read .RCC_APB1ENR (regs .RCC_APB1ENR),
   .write .RCC_APB1ENR ((regs .RCC_APB1ENR ||| 0x00020000) % 2 ^ 32)]

/-- The state of the Semihosting `main` once it has reached its idle loop. -/
def semiFinal (svc : Int) (ma pa : Nat) : SemiState :=
  { pc := .idle, message := semiText ++ [0],
    param := [1, ma % 2 ^ 32, 14], traps := [{ r0 := svc, r1 := pa }] }

/-! ## Basic lemmas -/

/-- Distinct registers of `reg.h` sit at distinct addresses. -/
theorem Reg.addr_injective (r q : Reg) (h : r.addr = q.addr) : r = q := by
  cases r <;> cases q <;> first | rfl | exact absurd h (by decide)

theorem writesOf_append (t u : List Event) : writesOf (t ++ u) = writesOf t ++ writesOf u := by
  induction t with
  | nil => rfl
  | cons e t ih => cases e <;> simp [writesOf, ih]

theorem writesOf_cycleTrace (sr : Nat → Nat) (n : Nat) (S : List Nat) :
    writesOf (cycleTrace sr n S) = S.map (fun c => (Reg.USART2_DR, c &&& 0xFF)) := by
  induction S generalizing n with
  | nil => rfl
  | cons c cs ih => simp [cycleTrace, writesOf, ih]

theorem putsRun_add (mem : List Nat) (a b : Nat) (s : PutsState) :
    putsRun mem (a + b) s = putsRun mem b (putsRun mem a s) := by
  induction a generalizing s with
  | zero => simp [putsRun]
  | succ a ih => rw [Nat.add_right_comm]; simp [putsRun, ih]

theorem putsStep_returned (mem : List Nat) (s : PutsState) (v : Int) (h : s.pc = .returned v) :
    putsStep mem s = s := by
  unfold putsStep; rw [h]

theorem putsRun_returned (mem : List Nat) (k : Nat) (s : PutsState) (v : Int)
    (h : s.pc = .returned v) : putsRun mem k s = s := by
  induction k with
  | zero => rfl
  | succ k ih => rw [putsRun, putsStep_returned mem s v h, ih]

theorem and_0xFF_lt (c : Nat) : c &&& 255 < 4294967296 := by
  have h : c &&& 255 ≤ 255 := Nat.and_le_right
  omega

theorem getElem?_append_cons_length (pre : List Nat) (c : Nat) (rest : List Nat) :
    (pre ++ c :: rest)[pre.length]? = some c := by
  rw [List.getElem?_append_right (Nat.le_refl _)]; simp

theorem putsStep_loopTest_char (mem : List Nat) (i c : Nat) (hw : Hw) (hm : mem[i]? = some c)
    (hc : c ≠ 0) :
    putsStep mem { pc := .loopTest, str := i, hw := hw }
      = { pc := .waitTxe, str := i, hw := hw } := by
  simp only [putsStep, hm]; simp [hc]

theorem putsStep_loopTest_nul (mem : List Nat) (i : Nat) (hw : Hw) (hm : mem[i]? = some 0) :
    putsStep mem { pc := .loopTest, str := i, hw := hw }
      = { pc := .returned 0, str := i, hw := hw } := by
  simp only [putsStep, hm]; simp

theorem putsStep_waitTxe_ready (mem : List Nat) (i : Nat) (hw : Hw)
    (hr : hw.sr hw.srReads &&& USART_FLAG_TXE ≠ 0) :
    putsStep mem { pc := .waitTxe, str := i, hw := hw }
      = { pc := .send, str := i,
          hw := { hw with srReads := hw.srReads + 1,
                          trace := hw.trace ++ [.read .USART2_SR (hw.sr hw.srReads)] } } := by
  simp only [putsStep, Hw.read]; simp [hr]

theorem putsStep_waitTxe_busy (mem : List Nat) (i : Nat) (hw : Hw)
    (hr : hw.sr hw.srReads &&& USART_FLAG_TXE = 0) :
    putsStep mem { pc := .waitTxe, str := i, hw := hw }
      = { pc := .waitTxe, str := i,
          hw := { hw with srReads := hw.srReads + 1,
                          trace := hw.trace ++ [.read .USART2_SR (hw.sr hw.srReads)] } } := by
  simp only [putsStep, Hw.read]; simp [hr]

theorem putsStep_send (mem : List Nat) (i c : Nat) (hw : Hw) (hm : mem[i]? = some c) :
    putsStep mem { pc := .send, str := i, hw := hw }
      = { pc := .loopTest, str := i + 1,
          hw := { hw with regs := fun q => if q = Reg.USART2_DR then c &&& 0xFF else hw.regs q,
                          trace := hw.trace ++ [.write .USART2_DR (c &&& 0xFF)] } } := by
  simp only [putsStep, hm, Hw.write]; simp [Nat.mod_eq_of_lt (and_0xFF_lt c)]

/-- One wait-then-write cycle whose first poll finds the flag set takes three
steps and appends one status read and one data store. -/
theorem putsRun_cycle (mem : List Nat) (i c : Nat) (hw : Hw) (hm : mem[i]? = some c)
    (hc : c ≠ 0) (hr : hw.sr hw.srReads &&& USART_FLAG_TXE ≠ 0) :
    putsRun mem 3 { pc := .loopTest, str := i, hw := hw } =
      { pc := .loopTest, str := i + 1,
        hw := { regs := fun q => if q = Reg.USART2_DR then c &&& 0xFF else hw.regs q,
                sr := hw.sr, srReads := hw.srReads + 1,
                trace := hw.trace ++
                  [.read .USART2_SR (hw.sr hw.srReads), .write .USART2_DR (c &&& 0xFF)] } } := by
  simp only [putsRun]
  rw [putsStep_loopTest_char mem i c hw hm hc, putsStep_waitTxe_ready mem i hw hr,
    putsStep_send mem i c _ hm]
  simp

/-- Running `puts` over the characters `S` followed by a terminator, with the
flag set at every poll. -/
theorem putsRun_string (pre S rest : List Nat) (hw : Hw) (hS : ∀ c ∈ S, c ≠ 0)
    (hsr : ∀ n, hw.sr n &&& USART_FLAG_TXE ≠ 0) :
    (putsRun (pre ++ S ++ 0 :: rest) (3 * S.length + 1)
        { pc := .loopTest, str := pre.length, hw := hw }).pc = .returned 0 ∧
    (putsRun (pre ++ S ++ 0 :: rest) (3 * S.length + 1)
        { pc := .loopTest, str := pre.length, hw := hw }).hw.trace
      = hw.trace ++ cycleTrace hw.sr hw.srReads S := by
  induction S generalizing pre hw with
  | nil =>
    have hm : (pre ++ [] ++ 0 :: rest)[pre.length]? = some 0 := by
      rw [List.append_nil]; exact getElem?_append_cons_length pre 0 rest
    simp only [List.length_nil, Nat.mul_zero, Nat.zero_add, putsRun]
    rw [putsStep_loopTest_nul _ _ hw hm]
    simp [cycleTrace]
  | cons c cs ih =>
    have hm : (pre ++ (c :: cs) ++ 0 :: rest)[pre.length]? = some c := by
      rw [List.append_assoc]; exact getElem?_append_cons_length pre c _
    have hc : c ≠ 0 := hS c (by simp)
    have e : 3 * (c :: cs).length + 1 = 3 + (3 * cs.length + 1) := by
      simp only [List.length_cons]; omega
    rw [e, putsRun_add, putsRun_cycle _ _ c hw hm hc (hsr _)]
    have hmem : pre ++ (c :: cs) ++ 0 :: rest = (pre ++ [c]) ++ cs ++ 0 :: rest := by simp
    have hlen : pre.length + 1 = (pre ++ [c]).length := by simp
    rw [hmem, hlen]
    have := ih (pre ++ [c])
      { regs := fun q => if q = Reg.USART2_DR then c &&& 0xFF else hw.regs q,
        sr := hw.sr, srReads := hw.srReads + 1,
        trace := hw.trace ++
          [.read .USART2_SR (hw.sr hw.srReads), .write .USART2_DR (c &&& 0xFF)] }
      (fun x hx => hS x (by simp [hx])) hsr
    refine ⟨this.1, ?_⟩
    rw [this.2]
    simp [cycleTrace]

/-! ## The transmit driver with a permanently clear flag -/

theorem blocked_step (c : Nat) (rest : List Nat) (sr : Nat → Nat) (hc : c ≠ 0)
    (hsr : ∀ n, sr n &&& USART_FLAG_TXE = 0) (s : PutsState) (h : Blocked sr s) :
    Blocked sr (putsStep (c :: rest) s) := by
  obtain ⟨pc, str, hw⟩ := s
  obtain ⟨hpc, hstr, hw0, hsr0⟩ := h
  simp only at hpc hstr hw0 hsr0
  subst hstr
  rcases hpc with hpc | hpc <;> subst hpc
  · rw [putsStep_loopTest_char (c :: rest) 0 c hw (by simp) hc]
    exact ⟨Or.inr rfl, rfl, hw0, hsr0⟩
  · rw [putsStep_waitTxe_busy (c :: rest) 0 hw (by rw [hsr0]; exact hsr _)]
    refine ⟨Or.inr rfl, rfl, ?_, hsr0⟩
    simp [writesOf_append, hw0, writesOf]

theorem blocked_run (c : Nat) (rest : List Nat) (sr : Nat → Nat) (hc : c ≠ 0)
    (hsr : ∀ n, sr n &&& USART_FLAG_TXE = 0) (k : Nat) (s : PutsState) (h : Blocked sr s) :
    Blocked sr (putsRun (c :: rest) k s) := by
  induction k generalizing s with
  | zero => exact h
  | succ k ih => exact ih _ (blocked_step c rest sr hc hsr s h)

/-! ## Ordering of status reads and data stores -/

theorem writeAfterReady_snoc_read (t : List Event) (x : Nat) (h : WriteAfterReady t) :
    WriteAfterReady (t ++ [.read .USART2_SR x]) := by
  intro i v hi
  by_cases hlt : i < t.length
  · rw [List.getElem?_append_left hlt] at hi
    obtain ⟨w, hpos, hprev, hw⟩ := h i v hi
    exact ⟨w, hpos, by rw [List.getElem?_append_left (by omega)]; exact hprev, hw⟩
  · rw [List.getElem?_append_right (by omega)] at hi
    by_cases h0 : i - t.length = 0
    · rw [h0] at hi; simp at hi
    · obtain ⟨n, hn⟩ := Nat.exists_eq_succ_of_ne_zero h0
      rw [hn] at hi; simp at hi

theorem writeAfterReady_snoc_write (t : List Event) (x w : Nat) (h : WriteAfterReady t)
    (hl : t.getLast? = some (.read .USART2_SR w)) (hw : w &&& USART_FLAG_TXE ≠ 0) :
    WriteAfterReady (t ++ [.write .USART2_DR x]) := by
  intro i v hi
  by_cases hlt : i < t.length
  · rw [List.getElem?_append_left hlt] at hi
    obtain ⟨w1, hpos, hprev, hw1⟩ := h i v hi
    exact ⟨w1, hpos, by rw [List.getElem?_append_left (by omega)]; exact hprev, hw1⟩
  · have hne : t ≠ [] := by
      intro e; rw [e] at hl; simp at hl
    have hlen : 0 < t.length := List.length_pos.mpr hne
    by_cases h0 : i - t.length = 0
    · have hi2 : i = t.length := by omega
      refine ⟨w, by omega, ?_, hw⟩
      rw [hi2, List.getElem?_append_left (by omega), ← List.getLast?_eq_getElem?]
      exact hl
    · rw [List.getElem?_append_right (by omega)] at hi
      obtain ⟨n, hn⟩ := Nat.exists_eq_succ_of_ne_zero h0
      rw [hn] at hi; simp at hi

theorem onlyPollAndSend_snoc (t : List Event) (e : Event) (h : OnlyPollAndSend t)
    (he : (∃ v, e = .read .USART2_SR v) ∨ (∃ v, e = .write .USART2_DR v)) :
    OnlyPollAndSend (t ++ [e]) := by
  intro x hx
  rcases List.mem_append.mp hx with hx | hx
  · exact h x hx
  · rw [List.mem_singleton.mp hx]; exact he

theorem ordered_step (mem : List Nat) (s : PutsState) (h : Ordered s) :
    Ordered (putsStep mem s) := by
  obtain ⟨pc, str, hw⟩ := s
  obtain ⟨h1, h2, h3⟩ := h
  simp only at h1 h2 h3
  cases pc with
  | loopTest =>
    cases hm : mem[str]? with
    | none => simp only [putsStep, hm]; exact ⟨h1, h2, by simp⟩
    | some c =>
      by_cases hc : c = 0
      · subst hc
        rw [putsStep_loopTest_nul mem str hw hm]; exact ⟨h1, h2, by simp⟩
      · rw [putsStep_loopTest_char mem str c hw hm hc]; exact ⟨h1, h2, by simp⟩
  | waitTxe =>
    by_cases hr : hw.sr hw.srReads &&& USART_FLAG_TXE = 0
    · rw [putsStep_waitTxe_busy mem str hw hr]
      exact ⟨onlyPollAndSend_snoc _ _ h1 (Or.inl ⟨_, rfl⟩),
        writeAfterReady_snoc_read _ _ h2, by simp⟩
    · rw [putsStep_waitTxe_ready mem str hw hr]
      exact ⟨onlyPollAndSend_snoc _ _ h1 (Or.inl ⟨_, rfl⟩),
        writeAfterReady_snoc_read _ _ h2, fun _ => ⟨_, by simp, hr⟩⟩
  | send =>
    cases hm : mem[str]? with
    | none => simp only [putsStep, hm]; exact ⟨h1, h2, by simp⟩
    | some c =>
      rw [putsStep_send mem str c hw hm]
      obtain ⟨w, hl, hw1⟩ := h3 rfl
      exact ⟨onlyPollAndSend_snoc _ _ h1 (Or.inr ⟨_, rfl⟩),
        writeAfterReady_snoc_write _ _ w h2 hl hw1, by simp⟩
  | returned v => exact ⟨h1, h2, h3⟩
  | fault => exact ⟨h1, h2, h3⟩

theorem ordered_run (mem : List Nat) (k : Nat) (s : PutsState) (h : Ordered s) :
    Ordered (putsRun mem k s) := by
  induction k generalizing s with
  | zero => exact h
  | succ k ih => exact ih _ (ordered_step mem s h)

theorem ordered_entry (regs : Reg → Nat) (sr : Nat → Nat) :
    Ordered (PutsState.entry (Hw.init regs sr)) := by
  refine ⟨?_, ?_, ?_⟩
  · intro e he; simp [PutsState.entry, Hw.init] at he
  · intro i v hi; simp [PutsState.entry, Hw.init] at hi
  · intro hpc; simp [PutsState.entry] at hpc

/-! ## The initialisation of the HelloWorld `main` -/

theorem mainRun_add (a b : Nat) (s : MainState) :
    mainRun (a + b) s = mainRun b (mainRun a s) := by
  induction a generalizing s with
  | zero => simp [mainRun]
  | succ a ih => rw [Nat.add_right_comm]; simp [mainRun, ih]

theorem HelloWorld.main_initSteps (regs : Reg → Nat) (sr : Nat → Nat) :
    HelloWorld.main regs sr initSteps = .init .callPuts (initHw regs sr) := rfl

theorem HelloWorld.main_after_init (regs : Reg → Nat) (sr : Nat → Nat) (d : Nat) :
    HelloWorld.main regs sr (initSteps + d) = mainRun d (.init .callPuts (initHw regs sr)) := by
  unfold HelloWorld.main
  rw [mainRun_add]; rfl

theorem initHw_trace (regs : Reg → Nat) (sr : Nat → Nat) :
    (initHw regs sr).trace =
      [.read .RCC_APB2ENR (regs .RCC_APB2ENR),
       .write .RCC_APB2ENR ((regs .RCC_APB2ENR ||| 5) % 2 ^ 32),
       .read .RCC_APB1ENR (regs .RCC_APB1ENR),
       .write .RCC_APB1ENR ((regs .RCC_APB1ENR ||| 0x00020000) % 2 ^ 32),
       .write .GPIOA_CRL 0x00004B00,
       .write .GPIOA_CRH 0x44444444,
       .write .USART2_CR1 0x0000000C,
       .read .USART2_CR1 0x0000000C,
       .write .USART2_CR1 0x0000200C] := by
  simp [initHw, Hw.orAssign, Hw.read, Hw.write, Hw.init]

theorem initHw_apb2 (regs : Reg → Nat) (sr : Nat → Nat) :
    (initHw regs sr).regs .RCC_APB2ENR = (regs .RCC_APB2ENR ||| 5) % 2 ^ 32 := by
  simp [initHw, Hw.orAssign, Hw.read, Hw.write, Hw.init]

theorem initHw_apb1 (regs : Reg → Nat) (sr : Nat → Nat) :
    (initHw regs sr).regs .RCC_APB1ENR = (regs .RCC_APB1ENR ||| 0x00020000) % 2 ^ 32 := by
  simp [initHw, Hw.orAssign, Hw.read, Hw.write, Hw.init]

theorem initHw_cr1 (regs : Reg → Nat) (sr : Nat → Nat) :
    (initHw regs sr).regs .USART2_CR1 = 0x0000200C := by
  simp [initHw, Hw.orAssign, Hw.read, Hw.write, Hw.init]

theorem putsStep_regs (mem : List Nat) (s : PutsState) (r : Reg) (hr : r ≠ .USART2_DR) :
    (putsStep mem s).hw.regs r = s.hw.regs r := by
  obtain ⟨pc, str, hw⟩ := s
  cases pc with
  | loopTest =>
    cases hm : mem[str]? with
    | none => simp only [putsStep, hm]
    | some c =>
      by_cases hc : c = 0
      · subst hc; rw [putsStep_loopTest_nul mem str hw hm]
      · rw [putsStep_loopTest_char mem str c hw hm hc]
  | waitTxe =>
    by_cases h : hw.sr hw.srReads &&& USART_FLAG_TXE = 0
    · rw [putsStep_waitTxe_busy mem str hw h]
    · rw [putsStep_waitTxe_ready mem str hw h]
  | send =>
    cases hm : mem[str]? with
    | none => simp only [putsStep, hm]
    | some c => rw [putsStep_send mem str c hw hm]; simp [hr]
  | returned v => rfl
  | fault => rfl

theorem putsStep_trace (mem : List Nat) (s : PutsState) :
    ∃ es, (putsStep mem s).hw.trace = s.hw.trace ++ es := by
  obtain ⟨pc, str, hw⟩ := s
  cases pc with
  | loopTest =>
    cases hm : mem[str]? with
    | none => exact ⟨[], by simp only [putsStep, hm]; simp⟩
    | some c =>
      by_cases hc : c = 0
      · subst hc; rw [putsStep_loopTest_nul mem str hw hm]; exact ⟨[], by simp⟩
      · rw [putsStep_loopTest_char mem str c hw hm hc]; exact ⟨[], by simp⟩
  | waitTxe =>
    by_cases h : hw.sr hw.srReads &&& USART_FLAG_TXE = 0
    · rw [putsStep_waitTxe_busy mem str hw h]; exact ⟨_, rfl⟩
    · rw [putsStep_waitTxe_ready mem str hw h]; exact ⟨_, rfl⟩
  | send =>
    cases hm : mem[str]? with
    | none => exact ⟨[], by simp only [putsStep, hm]; simp⟩
    | some c => rw [putsStep_send mem str c hw hm]; exact ⟨_, rfl⟩
  | returned v => exact ⟨[], by simp [putsStep]⟩
  | fault => exact ⟨[], by simp [putsStep]⟩

theorem mainStep_pastInit (s : MainState) (h : s.pastInit) :
    (mainStep s).pastInit ∧ (mainStep s).returned = false ∧
      ∀ r, r ≠ Reg.USART2_DR → (mainStep s).hw.regs r = s.hw.regs r := by
  cases s with
  | init pc hw =>
    cases pc with
    | callPuts => exact ⟨trivial, rfl, fun r _ => rfl⟩
    | _ => exact False.elim h
  | inPuts p =>
    obtain ⟨pc, str, hw⟩ := p
    cases pc with
    | returned v => exact ⟨trivial, rfl, fun r _ => rfl⟩
    | loopTest => exact ⟨trivial, rfl, fun r hr => putsStep_regs _ _ r hr⟩
    | waitTxe => exact ⟨trivial, rfl, fun r hr => putsStep_regs _ _ r hr⟩
    | send => exact ⟨trivial, rfl, fun r hr => putsStep_regs _ _ r hr⟩
    | fault => exact ⟨trivial, rfl, fun r hr => putsStep_regs _ _ r hr⟩
  | idle hw => exact ⟨trivial, rfl, fun r _ => rfl⟩
  | exit hw => exact False.elim h

theorem mainRun_pastInit (d : Nat) (s : MainState) (h : s.pastInit) :
    (mainRun d s).pastInit ∧ ∀ r, r ≠ Reg.USART2_DR → (mainRun d s).hw.regs r = s.hw.regs r := by
  induction d generalizing s with
  | zero => exact ⟨h, fun _ _ => rfl⟩
  | succ d ih =>
    obtain ⟨h1, -, h3⟩ := mainStep_pastInit s h
    obtain ⟨i1, i3⟩ := ih (mainStep s) h1
    exact ⟨i1, fun r hr => by rw [mainRun, i3 r hr, h3 r hr]⟩

theorem hw_write_trace (h : Hw) (r : Reg) (v : Nat) :
    (h.write r v).trace = h.trace ++ [.write r (v % 2 ^ 32)] := rfl

theorem hw_orAssign_trace (h : Hw) (r : Reg) (m : Nat) :
    ∃ a b, (h.orAssign r m).trace = h.trace ++ [a, b] := by
  cases r <;>
    exact ⟨_, _, by simp only [Hw.orAssign, Hw.read, Hw.write, List.append_assoc]; rfl⟩

theorem mainStep_trace (s : MainState) :
    ∃ es, (mainStep s).hw.trace = s.hw.trace ++ es := by
  cases s with
  | init pc hw =>
    cases pc with
    | clkApb2 => obtain ⟨a, b, h⟩ := hw_orAssign_trace hw .RCC_APB2ENR (1 ||| 4); exact ⟨_, h⟩
    | clkApb1 => obtain ⟨a, b, h⟩ := hw_orAssign_trace hw .RCC_APB1ENR 0x20000; exact ⟨_, h⟩
    | gpioCrl => exact ⟨_, hw_write_trace hw _ _⟩
    | gpioCrh => exact ⟨_, hw_write_trace hw _ _⟩
    | usartCr1 => exact ⟨_, hw_write_trace hw _ _⟩
    | usartUe => obtain ⟨a, b, h⟩ := hw_orAssign_trace hw .USART2_CR1 0x2000; exact ⟨_, h⟩
    | callPuts => exact ⟨[], by simp [mainStep, MainState.hw, PutsState.entry]⟩
  | inPuts p =>
    obtain ⟨pc, str, hw⟩ := p
    cases pc with
    | returned v => exact ⟨[], by simp [mainStep, MainState.hw]⟩
    | loopTest => exact putsStep_trace helloMessage _
    | waitTxe => exact putsStep_trace helloMessage _
    | send => exact putsStep_trace helloMessage _
    | fault => exact putsStep_trace helloMessage _
  | idle hw => exact ⟨[], by simp [mainStep, MainState.hw]⟩
  | exit hw => exact ⟨[], by simp [mainStep, MainState.hw]⟩

theorem mainRun_trace (d : Nat) (s : MainState) :
    ∃ es, (mainRun d s).hw.trace = s.hw.trace ++ es := by
  induction d generalizing s with
  | zero => exact ⟨[], by simp [mainRun]⟩
  | succ d ih =>
    obtain ⟨es, h⟩ := mainStep_trace s
    obtain ⟨fs, i⟩ := ih (mainStep s)
    exact ⟨es ++ fs, by rw [mainRun, i, h, List.append_assoc]⟩

theorem HelloWorld.main_two (regs : Reg → Nat) (sr : Nat → Nat) :
    (HelloWorld.main regs sr 2).hw.trace = clockTrace regs := by
  simp [HelloWorld.main, mainRun, mainStep, MainState.entry, MainState.hw, Hw.orAssign, Hw.read,
    Hw.write, Hw.init, clockTrace]

theorem HelloWorld.main_one (regs : Reg → Nat) (sr : Nat → Nat) :
    (HelloWorld.main regs sr 1).hw.trace = (clockTrace regs).take 2 := by
  simp [HelloWorld.main, mainRun, mainStep, MainState.entry, MainState.hw, Hw.orAssign, Hw.read,
    Hw.write, Hw.init, clockTrace]

/-- From the second step on, the trace of `main` starts with the two
clock-enable read-modify-writes. -/
theorem HelloWorld.main_trace_prefix (regs : Reg → Nat) (sr : Nat → Nat) (d : Nat) :
    ∃ es, (HelloWorld.main regs sr (d + 2)).hw.trace = clockTrace regs ++ es := by
  have e : HelloWorld.main regs sr (d + 2) = mainRun d (HelloWorld.main regs sr 2) := by
    unfold HelloWorld.main; rw [Nat.add_comm, mainRun_add]
  obtain ⟨es, h⟩ := mainRun_trace d (HelloWorld.main regs sr 2)
  exact ⟨es, by rw [e, h, HelloWorld.main_two]⟩

theorem clockTrace_no_peripheral (regs : Reg → Nat) (n : Nat) (e : Event)
    (h : (clockTrace regs)[n]? = some e) : e.touchesPeripheral = false := by
  have hmem : e ∈ clockTrace regs := List.getElem?_mem h
  simp only [clockTrace, List.mem_cons, List.mem_singleton, List.not_mem_nil, or_false] at hmem
  rcases hmem with rfl | rfl | rfl | rfl <;> rfl

/-- After the initialisation, and from then on, a register other than
`USART2_DR` holds what the initialisation left in it. -/
theorem HelloWorld.main_regs_after_init (regs : Reg → Nat) (sr : Nat → Nat) (k : Nat)
    (hk : initSteps ≤ k) (r : Reg) (hr : r ≠ .USART2_DR) :
    (HelloWorld.main regs sr k).hw.regs r = (initHw regs sr).regs r := by
  obtain ⟨d, rfl⟩ := Nat.exists_eq_add_of_le hk
  rw [HelloWorld.main_after_init]
  exact (mainRun_pastInit d (.init .callPuts (initHw regs sr)) trivial).2 r hr

theorem testBit_0x200C (i : Nat) (h2 : i ≠ 2) (h3 : i ≠ 3) (h13 : i ≠ 13) :
    (0x0000200C : Nat).testBit i = false := by
  by_cases hi : i < 14
  · interval_cases i <;> first | contradiction | decide
  · apply Nat.testBit_lt_two_pow
    calc (0x0000200C : Nat) < 2 ^ 14 := by decide
      _ ≤ 2 ^ i := Nat.pow_le_pow_right (by decide) (by omega)

/-! ## Bootstrap and Semihosting lemmas -/

theorem mainStep_not_returned (s : MainState) (h : s.returned = false) :
    (mainStep s).returned = false := by
  cases s with
  | init pc hw => cases pc <;> rfl
  | inPuts p =>
    obtain ⟨pc, str, hw⟩ := p
    cases pc <;> rfl
  | idle hw => rfl
  | exit hw => exact absurd h (by simp [MainState.returned])

theorem helloReset_inMain (k : Nat) (s : MainState) (h : s.returned = false) :
    (resetRun (helloResetStep helloProg) k (.inMain s)).hasReturned = false := by
  induction k generalizing s with
  | zero => rfl
  | succ k ih =>
    have e : helloResetStep helloProg (.inMain s) = .inMain (mainStep s) := by
      simp [helloResetStep, helloProg, h]
    rw [resetRun, e]
    exact ih _ (mainStep_not_returned s h)

theorem semiResetStep_not_returned {σ : Type} (M : Prog σ) (s : ResetState σ)
    (h : s.hasReturned = false) : (semiResetStep M s).hasReturned = false := by
  cases s with
  | inMain x =>
    by_cases hx : M.returned x = true
    · simp [semiResetStep, hx, ResetState.hasReturned]
    · simp [semiResetStep, hx, ResetState.hasReturned]
  | idleLoop => rfl
  | returned => exact absurd h (by simp [ResetState.hasReturned])

theorem semiReset_not_returned {σ : Type} (M : Prog σ) (k : Nat) (s : ResetState σ)
    (h : s.hasReturned = false) :
    (resetRun (semiResetStep M) k s).hasReturned = false := by
  induction k generalizing s with
  | zero => exact h
  | succ k ih => exact ih _ (semiResetStep_not_returned M s h)

theorem semiReset_idle {σ : Type} (M : Prog σ) (k : Nat) :
    resetRun (semiResetStep M) k .idleLoop = .idleLoop := by
  induction k with
  | zero => rfl
  | succ k ih => rw [resetRun]; exact ih

theorem semiMainRun_add (svc : Int) (ma pa : Nat) (host : Int → Nat → Int) (a b : Nat)
    (s : SemiState) :
    semiMainRun svc ma pa host (a + b) s = semiMainRun svc ma pa host b (semiMainRun svc ma pa host a s) := by
  induction a generalizing s with
  | zero => simp [semiMainRun]
  | succ a ih => rw [Nat.add_right_comm]; simp [semiMainRun, ih]

theorem semiMainRun_idle (svc : Int) (ma pa : Nat) (host : Int → Nat → Int) (k : Nat)
    (s : SemiState) (h : s.pc = .idle) : semiMainRun svc ma pa host k s = s := by
  induction k with
  | zero => rfl
  | succ k ih =>
    have e : semiMainStep svc ma pa host s = s := by
      unfold semiMainStep; rw [h]
    rw [semiMainRun, e, ih]

theorem semiMain_three (svc : Int) (ma pa : Nat) (host : Int → Nat → Int) :
    Semihosting.main svc ma pa host 3 = semiFinal svc ma pa := by
  simp [Semihosting.main, semiMainRun, semiMainStep, SemiState.entry, semihost_call, semiFinal,
    semiText]

theorem semiMain_from_three (svc : Int) (ma pa : Nat) (host : Int → Nat → Int) (k : Nat)
    (hk : 3 ≤ k) : Semihosting.main svc ma pa host k = semiFinal svc ma pa := by
  obtain ⟨d, rfl⟩ := Nat.exists_eq_add_of_le hk
  have h3 := semiMain_three svc ma pa host
  unfold Semihosting.main at h3 ⊢
  rw [semiMainRun_add, h3, semiMainRun_idle _ _ _ _ _ _ rfl]

/-! ## Claims about `puts` -/

/-- C1: for a NUL-terminated string with content `S` of length `N`, when every
read of `USART2_SR` has TXE set, `puts` has returned 0 after `3 * N + 1` steps
(and stays returned), its trace is exactly `N` wait-then-write cycles, and its
stores are exactly the `N` stores to `USART2_DR` of the bytes of `S` masked
with `0xFF`, in input order. -/
theorem puts_transmits_string (S rest : List Nat) (regs : Reg → Nat) (sr : Nat → Nat)
    (hS : ∀ c ∈ S, c ≠ 0) (hsr : ∀ n, sr n &&& USART_FLAG_TXE ≠ 0)
    (k : Nat) (hk : 3 * S.length + 1 ≤ k) :
    (puts (S ++ 0 :: rest) (Hw.init regs sr) k).pc = .returned 0 ∧
    (puts (S ++ 0 :: rest) (Hw.init regs sr) k).hw.trace = cycleTrace sr 0 S ∧
    writesOf (puts (S ++ 0 :: rest) (Hw.init regs sr) k).hw.trace
      = S.map (fun c => (Reg.USART2_DR, c &&& 0xFF)) ∧
    (writesOf (puts (S ++ 0 :: rest) (Hw.init regs sr) k).hw.trace).length = S.length := by
  obtain ⟨d, rfl⟩ := Nat.exists_eq_add_of_le hk
  have h := putsRun_string [] S rest (Hw.init regs sr) hS hsr
  simp only [List.nil_append, List.length_nil] at h
  have e : puts (S ++ 0 :: rest) (Hw.init regs sr) (3 * S.length + 1 + d)
      = putsRun (S ++ 0 :: rest) (3 * S.length + 1)
          { pc := .loopTest, str := 0, hw := Hw.init regs sr } := by
    unfold puts PutsState.entry
    rw [putsRun_add, putsRun_returned _ d _ 0 h.1]
  rw [e]
  have ht : (putsRun (S ++ 0 :: rest) (3 * S.length + 1)
      { pc := .loopTest, str := 0, hw := Hw.init regs sr }).hw.trace = cycleTrace sr 0 S := by
    rw [h.2]; simp [Hw.init]
  refine ⟨h.1, ht, ?_, ?_⟩
  · rw [ht, writesOf_cycleTrace]
  · rw [ht, writesOf_cycleTrace]; simp

/-- The string "HI" against an always-ready flag gives exactly the stores 0x48
then 0x49 to `USART2_DR`; the empty string gives no store. -/
theorem puts_transmits_string_witness :
    ((puts [0x48, 0x49, 0] (Hw.init (fun _ => 0) (fun _ => 0x80)) 7).pc = .returned 0 ∧
     (puts [0x48, 0x49, 0] (Hw.init (fun _ => 0) (fun _ => 0x80)) 7).hw.trace
        = [.read .USART2_SR 0x80, .write .USART2_DR 0x48,
           .read .USART2_SR 0x80, .write .USART2_DR 0x49] ∧
     writesOf (puts [0x48, 0x49, 0] (Hw.init (fun _ => 0) (fun _ => 0x80)) 7).hw.trace
        = [(Reg.USART2_DR, 0x48), (Reg.USART2_DR, 0x49)] ∧
     (writesOf (puts [0x48, 0x49, 0] (Hw.init (fun _ => 0) (fun _ => 0x80)) 7).hw.trace).length
        = 2) ∧
    ((puts [0] (Hw.init (fun _ => 0) (fun _ => 0x80)) 1).pc = .returned 0 ∧
     (puts [0] (Hw.init (fun _ => 0) (fun _ => 0x80)) 1).hw.trace = [] ∧
     writesOf (puts [0] (Hw.init (fun _ => 0) (fun _ => 0x80)) 1).hw.trace = [] ∧
     (writesOf (puts [0] (Hw.init (fun _ => 0) (fun _ => 0x80)) 1).hw.trace).length = 0) :=
  ⟨puts_transmits_string [0x48, 0x49] [] (fun _ => 0) (fun _ => 0x80) (by decide)
      (fun _ => show 0x80 &&& USART_FLAG_TXE ≠ 0 by decide) 7 (by decide),
   puts_transmits_string [] [] (fun _ => 0) (fun _ => 0x80) (by decide)
      (fun _ => show 0x80 &&& USART_FLAG_TXE ≠ 0 by decide) 1 (by decide)⟩

/-- C3: on a non-empty string, if every read of `USART2_SR` has TXE clear, then
for every step bound `k` the execution of `puts` bounded to `k` steps has not
completed and has stored nothing. -/
theorem puts_never_returns_when_not_ready (c : Nat) (rest : List Nat) (regs : Reg → Nat)
    (sr : Nat → Nat) (hc : c ≠ 0) (hsr : ∀ n, sr n &&& USART_FLAG_TXE = 0) (k : Nat) :
    (puts (c :: rest) (Hw.init regs sr) k).completed = false ∧
    writesOf (puts (c :: rest) (Hw.init regs sr) k).hw.trace = [] := by
  have h : Blocked sr (puts (c :: rest) (Hw.init regs sr) k) :=
    blocked_run c rest sr hc hsr k _ ⟨Or.inl rfl, rfl, rfl, rfl⟩
  obtain ⟨hpc, -, hw0, -⟩ := h
  refine ⟨?_, hw0⟩
  unfold PutsState.completed
  rcases hpc with hpc | hpc <;> rw [hpc]

/-- The string "HI" against a flag that is never set: after 1000 steps `puts`
has not completed and has stored nothing. -/
theorem puts_never_returns_when_not_ready_witness :
    (puts [0x48, 0x49, 0] (Hw.init (fun _ => 0) (fun _ => 0)) 1000).completed = false ∧
    writesOf (puts [0x48, 0x49, 0] (Hw.init (fun _ => 0) (fun _ => 0)) 1000).hw.trace = [] :=
  puts_never_returns_when_not_ready 0x48 [0x49, 0] (fun _ => 0) (fun _ => 0) (by decide)
    (fun _ => show 0 &&& USART_FLAG_TXE = 0 by decide) 1000

/-- C2: for every string storage and every sequence of values returned by the
reads of `USART2_SR`, in every execution prefix of `puts` each store to
`USART2_DR` is immediately preceded by a read of `USART2_SR` that had TXE set;
between two stores to `USART2_DR` there is such a read; and a read with TXE
clear is never immediately followed by a store. -/
theorem puts_stores_only_after_ready (mem : List Nat) (regs : Reg → Nat) (sr : Nat → Nat)
    (k : Nat) :
    (∀ i v, (puts mem (Hw.init regs sr) k).hw.trace[i]? = some (.write .USART2_DR v) →
      ∃ w, 0 < i ∧
        (puts mem (Hw.init regs sr) k).hw.trace[i - 1]? = some (.read .USART2_SR w) ∧
        w &&& USART_FLAG_TXE ≠ 0) ∧
    (∀ (i j v u : Nat), i < j →
      (puts mem (Hw.init regs sr) k).hw.trace[i]? = some (.write .USART2_DR v) →
      (puts mem (Hw.init regs sr) k).hw.trace[j]? = some (.write .USART2_DR u) →
      ∃ m w, i < m ∧ m < j ∧
        (puts mem (Hw.init regs sr) k).hw.trace[m]? = some (.read .USART2_SR w) ∧
        w &&& USART_FLAG_TXE ≠ 0) ∧
    (∀ i w e, (puts mem (Hw.init regs sr) k).hw.trace[i]? = some (.read .USART2_SR w) →
      w &&& USART_FLAG_TXE = 0 →
      (puts mem (Hw.init regs sr) k).hw.trace[i + 1]? = some e → e.isWrite = false) := by
  obtain ⟨h1, h2, -⟩ := ordered_run mem k _ (ordered_entry regs sr)
  change OnlyPollAndSend (puts mem (Hw.init regs sr) k).hw.trace at h1
  change WriteAfterReady (puts mem (Hw.init regs sr) k).hw.trace at h2
  generalize (puts mem (Hw.init regs sr) k).hw.trace = t at h1 h2
  refine ⟨h2, ?_, ?_⟩
  · intro i j v u hij hi hj
    obtain ⟨w, hpos, hprev, hw⟩ := h2 j u hj
    refine ⟨j - 1, w, ?_, by omega, hprev, hw⟩
    have hne : i ≠ j - 1 := by
      intro e; rw [← e, hi] at hprev; simp at hprev
    omega
  · intro i w e hi hw he
    have hmem : e ∈ t := List.getElem?_mem he
    rcases h1 e hmem with ⟨v, rfl⟩ | ⟨v, rfl⟩
    · rfl
    · obtain ⟨w1, -, hprev, hw1⟩ := h2 (i + 1) v he
      rw [Nat.add_sub_cancel, hi] at hprev
      simp only [Option.some.injEq, Event.read.injEq, true_and] at hprev
      rw [hprev] at hw
      exact absurd hw hw1

/-! ## Claims about the HelloWorld `main` -/

/-- C4: in every prefix of the register-access trace of the HelloWorld `main`,
for every initial register state and status stream, an access to a GPIOA or
USART2 register is preceded by the store to `RCC_APB2ENR` and by the store to
`RCC_APB1ENR`. -/
theorem main_clocks_before_peripheral_access (regs : Reg → Nat) (sr : Nat → Nat) (k n : Nat)
    (e : Event) (hn : (HelloWorld.main regs sr k).hw.trace[n]? = some e)
    (hp : e.touchesPeripheral = true) :
    ∃ i j, i < n ∧ j < n ∧
      (HelloWorld.main regs sr k).hw.trace[i]?
        = some (.write .RCC_APB2ENR ((regs .RCC_APB2ENR ||| 0x00000005) % 2 ^ 32)) ∧
      (HelloWorld.main regs sr k).hw.trace[j]?
        = some (.write .RCC_APB1ENR ((regs .RCC_APB1ENR ||| 0x00020000) % 2 ^ 32)) := by
  rcases k with _ | _ | d
  · simp [HelloWorld.main, mainRun, MainState.entry, MainState.hw, Hw.init] at hn
  · rw [HelloWorld.main_one] at hn
    have h2 : (clockTrace regs)[n]? = some e := by
      have hmem := List.getElem?_mem hn
      by_cases hlt : n < 2
      · rw [List.getElem?_take_of_lt hlt] at hn; exact hn
      · rw [List.getElem?_eq_none (by simp [clockTrace]; omega)] at hn
        exact absurd hn (by simp)
    rw [clockTrace_no_peripheral regs n e h2] at hp
    exact absurd hp (by simp)
  · obtain ⟨es, h⟩ := HelloWorld.main_trace_prefix regs sr d
    rw [h] at hn ⊢
    by_cases hlt : n < 4
    · rw [List.getElem?_append_left (by simpa [clockTrace] using hlt)] at hn
      rw [clockTrace_no_peripheral regs n e hn] at hp
      exact absurd hp (by simp)
    · exact ⟨1, 3, by omega, by omega, by simp [clockTrace], by simp [clockTrace]⟩

/-- With all registers initially zero and an always-ready flag, the fifth access
of `main` is the store to `GPIOA_CRL`, and both clock-enable stores precede it. -/
theorem main_clocks_before_peripheral_access_witness :
    ∃ i j, i < 4 ∧ j < 4 ∧
      (HelloWorld.main (fun _ => 0) (fun _ => 0x80) 3).hw.trace[i]?
        = some (.write .RCC_APB2ENR 0x00000005) ∧
      (HelloWorld.main (fun _ => 0) (fun _ => 0x80) 3).hw.trace[j]?
        = some (.write .RCC_APB1ENR 0x00020000) :=
  main_clocks_before_peripheral_access (fun _ => 0) (fun _ => 0x80) 3 4
    (.write .GPIOA_CRL 0x00004B00) (by decide) (by decide)

/-- C6: for all initial 32-bit values `A` of `RCC_APB2ENR` and `B` of
`RCC_APB1ENR`, once the initialisation of `main` is done `RCC_APB2ENR` is
`A ||| 0x00000005` and `RCC_APB1ENR` is `B ||| 0x00020000`: every bit set
beforehand stays set and no bit outside the mask changes. -/
theorem main_clock_enable_preserves_bits (regs : Reg → Nat) (sr : Nat → Nat)
    (hA : regs .RCC_APB2ENR < 2 ^ 32) (hB : regs .RCC_APB1ENR < 2 ^ 32)
    (k : Nat) (hk : initSteps ≤ k) :
    (HelloWorld.main regs sr k).hw.regs .RCC_APB2ENR = regs .RCC_APB2ENR ||| 0x00000005 ∧
    (HelloWorld.main regs sr k).hw.regs .RCC_APB1ENR = regs .RCC_APB1ENR ||| 0x00020000 ∧
    (∀ i, (regs .RCC_APB2ENR).testBit i = true →
      ((HelloWorld.main regs sr k).hw.regs .RCC_APB2ENR).testBit i = true) ∧
    (∀ i, (regs .RCC_APB1ENR).testBit i = true →
      ((HelloWorld.main regs sr k).hw.regs .RCC_APB1ENR).testBit i = true) ∧
    (∀ i, (0x00000005 : Nat).testBit i = false →
      ((HelloWorld.main regs sr k).hw.regs .RCC_APB2ENR).testBit i
        = (regs .RCC_APB2ENR).testBit i) ∧
    (∀ i, (0x00020000 : Nat).testBit i = false →
      ((HelloWorld.main regs sr k).hw.regs .RCC_APB1ENR).testBit i
        = (regs .RCC_APB1ENR).testBit i) := by
  have e2 : (HelloWorld.main regs sr k).hw.regs .RCC_APB2ENR = regs .RCC_APB2ENR ||| 0x00000005 := by
    rw [HelloWorld.main_regs_after_init regs sr k hk _ (by decide), initHw_apb2]
    exact Nat.mod_eq_of_lt (Nat.or_lt_two_pow hA (by decide))
  have e1 : (HelloWorld.main regs sr k).hw.regs .RCC_APB1ENR = regs .RCC_APB1ENR ||| 0x00020000 := by
    rw [HelloWorld.main_regs_after_init regs sr k hk _ (by decide), initHw_apb1]
    exact Nat.mod_eq_of_lt (Nat.or_lt_two_pow hB (by decide))
  rw [e1, e2]
  refine ⟨rfl, rfl, ?_, ?_, ?_, ?_⟩
  · intro i h; rw [Nat.testBit_or, h]; rfl
  · intro i h; rw [Nat.testBit_or, h]; rfl
  · intro i h; rw [Nat.testBit_or, h, Bool.or_false]
  · intro i h; rw [Nat.testBit_or, h, Bool.or_false]

/-- With `RCC_APB2ENR = 0x8` and `RCC_APB1ENR = 0x1` beforehand (foreign bits),
the registers hold `0xD` and `0x20001` once the initialisation is done. -/
theorem main_clock_enable_preserves_bits_witness :
    (HelloWorld.main (fun r => if r = .RCC_APB2ENR then 0x8 else if r = .RCC_APB1ENR then 0x1 else 0)
        (fun _ => 0x80) 6).hw.regs .RCC_APB2ENR = 0xD ∧
    (HelloWorld.main (fun r => if r = .RCC_APB2ENR then 0x8 else if r = .RCC_APB1ENR then 0x1 else 0)
        (fun _ => 0x80) 6).hw.regs .RCC_APB1ENR = 0x20001 :=
  have h := main_clock_enable_preserves_bits
    (fun r => if r = .RCC_APB2ENR then 0x8 else if r = .RCC_APB1ENR then 0x1 else 0)
    (fun _ => 0x80) (by decide) (by decide) 6 (by decide)
  ⟨h.1, h.2.1⟩

/-- C10: for every initial value of `USART2_CR1`, once the initialisation of
`main` is done `USART2_CR1` is exactly `0x0000200C`: the assignment leaves
`0x0000000C`, the OR adds bit 13 and keeps TE and RE, and no other bit is
set. -/
theorem main_usart_cr1_is_200C (regs : Reg → Nat) (sr : Nat → Nat) (k : Nat)
    (hk : initSteps ≤ k) :
    (HelloWorld.main regs sr 5).hw.regs .USART2_CR1 = 0x0000000C ∧
    (HelloWorld.main regs sr k).hw.regs .USART2_CR1 = 0x0000200C ∧
    ((HelloWorld.main regs sr k).hw.regs .USART2_CR1).testBit 2 = true ∧
    ((HelloWorld.main regs sr k).hw.regs .USART2_CR1).testBit 3 = true ∧
    ((HelloWorld.main regs sr k).hw.regs .USART2_CR1).testBit 13 = true ∧
    (∀ i, i ≠ 2 → i ≠ 3 → i ≠ 13 →
      ((HelloWorld.main regs sr k).hw.regs .USART2_CR1).testBit i = false) := by
  have e : (HelloWorld.main regs sr k).hw.regs .USART2_CR1 = 0x0000200C := by
    rw [HelloWorld.main_regs_after_init regs sr k hk _ (by decide), initHw_cr1]
  rw [e]
  refine ⟨?_, rfl, by decide, by decide, by decide, testBit_0x200C⟩
  simp [HelloWorld.main, mainRun, mainStep, MainState.entry, MainState.hw, Hw.orAssign, Hw.read,
    Hw.write, Hw.init]

/-- With `USART2_CR1 = 0xFFFFFFFF` beforehand the register still ends as
`0x0000200C`. -/
theorem main_usart_cr1_is_200C_witness :
    (HelloWorld.main (fun _ => 0xFFFFFFFF) (fun _ => 0x80) 5).hw.regs .USART2_CR1 = 0x0000000C ∧
    (HelloWorld.main (fun _ => 0xFFFFFFFF) (fun _ => 0x80) 6).hw.regs .USART2_CR1 = 0x0000200C :=
  have h := main_usart_cr1_is_200C (fun _ => 0xFFFFFFFF) (fun _ => 0x80) 6 (by decide)
  ⟨h.1, h.2.1⟩

/-- C5 as stated fails: with `USART2_CR1 = 0x10` beforehand, bit 4 (which is
none of TE, RE, UE) is set before the initialisation and clear after it. -/
theorem main_usart_cr1_loses_foreign_bit :
    (0x10 : Nat) < 2 ^ 32 ∧ (0x10 : Nat).testBit 4 = true ∧
    (0x0000000C : Nat).testBit 4 = false ∧ (0x2000 : Nat).testBit 4 = false ∧
    ((HelloWorld.main (fun r => if r = .USART2_CR1 then 0x10 else 0) (fun _ => 0x80)
        initSteps).hw.regs .USART2_CR1).testBit 4 = false := by
  decide

/-- C5 (amended): the plain assignment in step (3) discards what `USART2_CR1`
held: whatever the initial value, every bit other than RE (2), TE (3) and
UE (13) is clear once the initialisation is done.  Only the OR with `0x2000`
is a read-modify-write: it keeps every bit that is set in the 32-bit value the
register holds when it executes. -/
theorem main_usart_cr1_discards_prior_bits (regs : Reg → Nat) (sr : Nat → Nat) (k : Nat)
    (hk : initSteps ≤ k) (F : Nat) (h2 : F ≠ 2) (h3 : F ≠ 3) (h13 : F ≠ 13) :
    ((HelloWorld.main regs sr k).hw.regs .USART2_CR1).testBit F = false ∧
    (∀ (h : Hw) (i : Nat), h.regs .USART2_CR1 < 2 ^ 32 →
      (h.regs .USART2_CR1).testBit i = true →
      ((h.orAssign .USART2_CR1 0x2000).regs .USART2_CR1).testBit i = true) := by
  constructor
  · rw [HelloWorld.main_regs_after_init regs sr k hk _ (by decide), initHw_cr1]
    exact testBit_0x200C F h2 h3 h13
  · intro h i hlt hi
    have e : (h.orAssign .USART2_CR1 0x2000).regs .USART2_CR1
        = (h.regs .USART2_CR1 ||| 0x2000) % 2 ^ 32 := by
      simp [Hw.orAssign, Hw.read, Hw.write]
    rw [e, Nat.mod_eq_of_lt (Nat.or_lt_two_pow hlt (by decide)), Nat.testBit_or, hi]
    rfl

/-- With `USART2_CR1 = 0x10` beforehand, bit 4 is clear once the initialisation
is done. -/
theorem main_usart_cr1_discards_prior_bits_witness :
    ((HelloWorld.main (fun r => if r = .USART2_CR1 then 0x10 else 0) (fun _ => 0x80)
        6).hw.regs .USART2_CR1).testBit 4 = false :=
  (main_usart_cr1_discards_prior_bits (fun r => if r = .USART2_CR1 then 0x10 else 0)
    (fun _ => 0x80) 6 (by decide) 4 (by decide) (by decide) (by decide)).1

/-! ## Claims about the bootstrap -/

/-- C7 as stated fails for the HelloWorld variant: when `main` returns, its
`reset_handler` has itself returned after one step. -/
theorem hello_reset_returns_with_returning_main :
    (HelloWorld.reset_handler returningProg () 1).hasReturned = true := by
  decide

/-- C7 (amended): the Semihosting `reset_handler` calls `main` and never
returns, whatever `main` does: if `main` returns the handler enters its idle
loop and stays there.  The HelloWorld `reset_handler` calls `main` and has no
idle loop (it returns as soon as `main` has returned); it never returns
because the HelloWorld `main` never returns. -/
theorem reset_handlers_never_return {σ : Type} (M : Prog σ) (s0 : σ) (regs : Reg → Nat)
    (sr : Nat → Nat) (k : Nat) :
    (Semihosting.reset_handler M s0 k).hasReturned = false ∧
    (∀ s, M.returned s = true →
      semiResetStep M (.inMain s) = .idleLoop ∧
      ∀ j, resetRun (semiResetStep M) j .idleLoop = .idleLoop) ∧
    (∀ s, M.returned s = true → helloResetStep M (.inMain s) = .returned) ∧
    (HelloWorld.main regs sr k).returned = false ∧
    (HelloWorld.reset_handler helloProg (MainState.entry (Hw.init regs sr)) k).hasReturned
      = false := by
  refine ⟨semiReset_not_returned M k _ rfl, ?_, ?_, ?_, helloReset_inMain k _ rfl⟩
  · intro s hs
    exact ⟨by simp [semiResetStep, hs], fun j => semiReset_idle M j⟩
  · intro s hs
    simp [helloResetStep, hs]
  · have h : ∀ (n : Nat) (s : MainState), s.returned = false → (mainRun n s).returned = false := by
      intro n
      induction n with
      | zero => intro s hs; exact hs
      | succ n ih => intro s hs; exact ih _ (mainStep_not_returned s hs)
    exact h k _ rfl

/-! ## Claims about the Semihosting `main` -/

/-- C8 fails on the code in one point: the call site passes the identifier
`SYS_WRITE`, which `semi.c` declares nowhere (its only enumerator is spelt
`SYS_WRIE`, with value 0x05), so the single trap carries in `r0` whatever
`SYS_WRITE` denotes, and the source does not make that 0x05: with the value 6,
for instance, `r0` is not 0x05.  The rest of the claim holds for every value of
`SYS_WRITE`: the parameter block is exactly three words
`[1, address of message, size of message]`, exactly one `bkpt 0xab` trap is
taken, with `r1` the address of the block, and `semihost_call` passes any
service code and pointer to `r0` and `r1` unmodified and returns the host's
reply. -/
theorem semi_main_trap_service_is_undeclared_identifier (SYS_WRITE : Int)
    (messageAddr paramAddr : Nat) (host : Int → Nat → Int) :
    (∀ k, 3 ≤ k →
      (Semihosting.main SYS_WRITE messageAddr paramAddr host k).traps
        = [{ r0 := SYS_WRITE, r1 := paramAddr }]) ∧
    SYS_WRIE = 0x05 ∧
    (Semihosting.main 6 messageAddr paramAddr host 3).traps
      ≠ [{ r0 := 0x05, r1 := paramAddr }] ∧
    (∀ k, 3 ≤ k →
      (Semihosting.main SYS_WRITE messageAddr paramAddr host k).param
        = [1, messageAddr % 2 ^ 32,
            (Semihosting.main SYS_WRITE messageAddr paramAddr host k).message.length] ∧
      (Semihosting.main SYS_WRITE messageAddr paramAddr host k).param.length = 3 ∧
      (Semihosting.main SYS_WRITE messageAddr paramAddr host k).message = semiText ++ [0]) ∧
    (∀ j, (Semihosting.main SYS_WRITE messageAddr paramAddr host j).traps.length ≤ 1) ∧
    (∀ (h : Int → Nat → Int) (service : Int) (arg : Nat),
      (semihost_call h service arg).2 = { r0 := service, r1 := arg } ∧
      (semihost_call h service arg).1 = h service arg) := by
  refine ⟨?_, rfl, ?_, ?_, ?_, fun _ _ _ => ⟨rfl, rfl⟩⟩
  · intro k hk
    rw [semiMain_from_three SYS_WRITE messageAddr paramAddr host k hk]
    rfl
  · rw [semiMain_three]
    simp [semiFinal]
  · intro k hk
    rw [semiMain_from_three SYS_WRITE messageAddr paramAddr host k hk]
    exact ⟨rfl, rfl, rfl⟩
  · intro j
    rcases j with _ | _ | _ | d
    · simp [Semihosting.main, semiMainRun, SemiState.entry]
    · simp [Semihosting.main, semiMainRun, semiMainStep, SemiState.entry]
    · simp [Semihosting.main, semiMainRun, semiMainStep, SemiState.entry]
    · rw [semiMain_from_three SYS_WRITE messageAddr paramAddr host (d + 3) (by omega)]
      simp [semiFinal]

/-- C9 fails on the code: the third word of the parameter block is
`sizeof(message)`, 14, one more than the 13 characters of the text, so the
terminating NUL is part of what is asked to be written. -/
theorem semi_param_length_counts_terminator (SYS_WRITE : Int) (messageAddr paramAddr : Nat)
    (host : Int → Nat → Int) :
    (Semihosting.main SYS_WRITE messageAddr paramAddr host 3).param[2]? = some 14 ∧
    semiText.length = 13 ∧
    (Semihosting.main SYS_WRITE messageAddr paramAddr host 3).message[13]? = some 0 := by
  rw [semiMain_three]
  simp [semiFinal, semiText]

end LiteArm
